import Mathlib

/-!
Verification development for the chtz-document-generator repository.

This file shallowly embeds the reverse-pipeline table recognizers
(`src/reverse/recognizers/tables/*.js`), the section/metadata recognizers
(`SectionRecognizer`, `MetadataRecognizer`), the document validator
(`src/reverse/validator.js`), the function-table anchor-id generator and the
forward-path assembly context (`createAssemblyContext`), and proves the
stated behavioural properties about them.

JavaScript strings are modelled as Lean `String`; machine integers do not
occur (all counters are small naturals).  String helpers (`toLowerCase`,
`trim`, `includes`, `split`, number rendering) are re-implemented below with
JS semantics on the character ranges the program uses (ASCII + Cyrillic).
-/

namespace Chtz

/-- Whitespace class used by JS `trim` / `\s` on the inputs this program
handles (ASCII whitespace plus NBSP). -/
def isJsSpace (c : Char) : Bool :=
  c.toNat == 9 || c.toNat == 10 || c.toNat == 11 || c.toNat == 12 ||
  c.toNat == 13 || c.toNat == 32 || c.toNat == 160

/-- JS `toLowerCase` on one character, for ASCII letters and Cyrillic
А-Я / Ё (the alphabets appearing in the source's string constants). -/
def lowChar (c : Char) : Char :=
  if 65 ≤ c.toNat && c.toNat ≤ 90 then Char.ofNat (c.toNat + 32)
  else if 0x410 ≤ c.toNat && c.toNat ≤ 0x42F then Char.ofNat (c.toNat + 32)
  else if c.toNat == 0x401 then Char.ofNat 0x451
  else c

/-- JS `String.prototype.toLowerCase`. -/
def jsToLower (s : String) : String :=
  String.mk (s.data.map lowChar)

/-- Drop leading JS whitespace from a character list. -/
def dropWs (cs : List Char) : List Char :=
  cs.dropWhile isJsSpace

/-- JS `String.prototype.trim`. -/
def jsTrimStr (s : String) : String :=
  String.mk (((dropWs s.data).reverse.dropWhile isJsSpace).reverse)

/-- Does `s` start with the pattern `pat` (character lists)? -/
def startsL : List Char → List Char → Bool
  | [], _ => true
  | _ :: _, [] => false
  | p :: ps, c :: cs => p == c && startsL ps cs

/-- Does `s` contain `pat` as a contiguous substring (JS `includes`)? -/
def hasSubL (pat : List Char) : List Char → Bool
  | [] => startsL pat []
  | c :: cs => startsL pat (c :: cs) || hasSubL pat cs

/-- JS `s.includes(pat)`. -/
def strIncl (s pat : String) : Bool :=
  hasSubL pat.data s.data

/-- If `s` starts with `pat`, return the remainder. -/
def dropPre (pat : List Char) (s : List Char) : Option (List Char) :=
  if startsL pat s then some (s.drop pat.length) else none

/-- Little-endian decimal digits with explicit fuel (`fuel ≥ n` suffices). -/
def decDigitsRevFuel : Nat → Nat → List Nat
  | 0, n => [n]
  | fuel + 1, n => if n < 10 then [n] else n % 10 :: decDigitsRevFuel fuel (n / 10)

/-- Little-endian decimal digits of `n`. -/
def decDigitsRev (n : Nat) : List Nat :=
  decDigitsRevFuel n n

/-- Decimal digit to its character. -/
def digitCh (d : Nat) : Char :=
  Char.ofNat (48 + d)

/-- Character back to decimal digit. -/
def chDig (c : Char) : Nat :=
  c.toNat - 48

/-- Value of a little-endian digit list. -/
def fromDigitsRev : List Nat → Nat
  | [] => 0
  | d :: ds => d + 10 * fromDigitsRev ds

/-- JS number-to-string on naturals (template-literal interpolation). -/
def jsNatStr (n : Nat) : String :=
  String.mk ((decDigitsRev n).reverse.map digitCh)

/-- Split on runs of whitespace, dropping empty fragments (the JS uses
`split(/\s+/)` whose only extra fragments are empty strings that are
immediately removed by the `length > 3` filter downstream). -/
def splitWsAux : List Char → List Char → List (List Char)
  | [], acc => if acc.isEmpty then [] else [acc.reverse]
  | c :: cs, acc =>
    if isJsSpace c then
      if acc.isEmpty then splitWsAux cs [] else acc.reverse :: splitWsAux cs []
    else splitWsAux cs (c :: acc)

/-- A table cell (`{ text }`) as the recognizers consume it. -/
structure Cell where
  text : String
deriving DecidableEq, Repr

/-- A table row (`{ cells }`). -/
structure Row where
  cells : List Cell
deriving DecidableEq, Repr

/-- A table (`{ rows }`). -/
structure Table where
  rows : List Row
deriving DecidableEq, Repr

/-- Text of cell `i` of a row; "" when the cell is absent (the JS code only
reaches these accesses when the cell exists). -/
def cellAt (r : Row) (i : Nat) : String :=
  ((r.cells.get? i).map Cell.text).getD ""

/-- Source `TermsTableRecognizer.canRecognize` (part_004 lines 23-46).  The guard
`table.rows.length < 2` is encoded by the two-cons pattern. -/
def termsCanRecognize (t : Table) : Bool :=
  match t.rows with
  | r0 :: _ :: _ =>
    if r0.cells.length ≠ 2 then false
    else
      let headers := r0.cells.map (fun c => jsTrimStr (jsToLower c.text))
      (headers.any fun h =>
        strIncl h "термин" || strIncl h "сокращение" || strIncl h "аббревиатура") &&
      (headers.any fun h =>
        strIncl h "определение" || strIncl h "расшифровка" || strIncl h "описание")
  | _ => false

/-- Source `ChangesTableRecognizer.canRecognize` (changes-table.js lines 23-45).
The guard `table.rows.length < 2` is encoded by the two-cons pattern. -/
def changesCanRecognize (t : Table) : Bool :=
  match t.rows with
  | r0 :: _ :: _ =>
    if r0.cells.length ≠ 2 then false
    else
      let headers := r0.cells.map (fun c => jsTrimStr (jsToLower c.text))
      (headers.any fun h =>
        strIncl h "как есть" || strIncl h "текущее" || strIncl h "было") &&
      (headers.any fun h =>
        strIncl h "как будет" || strIncl h "новое" || strIncl h "стало" ||
        strIncl h "планируется")
  | _ => false

/-- Source `FunctionTableRecognizer.canRecognize` (function-table.js lines 27-50).
The guard `table.rows.length < 3` is encoded by the three-cons pattern. -/
def functionCanRecognize (t : Table) : Bool :=
  match t.rows with
  | r0 :: r1 :: r2 :: _ =>
    if r0.cells.length ≠ 2 then false
    else
      let l0 := jsToLower (jsTrimStr (cellAt r0 0))
      let l1 := jsToLower (jsTrimStr (cellAt r1 0))
      let l2 := jsToLower (jsTrimStr (cellAt r2 0))
      l0 == "функция" && strIncl l1 "задач" && l2 == "сценарий"
  | _ => false

/-- The sub-recognizer list of `TableRecognizer`, in constructor order
(function, then terms, then changes), as (predicate, `getType()`) pairs. -/
def recognizerList : List ((Table → Bool) × String) :=
  [(functionCanRecognize, "function"),
   (termsCanRecognize, "terms"),
   (changesCanRecognize, "changes")]

/-- Source `TableRecognizer.identifyType` (changes-table.js lines 136-143): first
sub-recognizer whose predicate holds wins; fallback tag "regular". -/
def identifyType (t : Table) : String :=
  match recognizerList.find? (fun rc => rc.1 t) with
  | some rc => rc.2
  | none => "regular"

/-- The terms branch condition of `SectionRecognizer.identifyTableType`. -/
def inlineTermsCond (headers : List String) : Bool :=
  headers.length == 2 && (headers.any fun h => strIncl h "термин") &&
  (headers.any fun h => strIncl h "определение")

/-- The changes branch condition of `SectionRecognizer.identifyTableType`. -/
def inlineChangesCond (headers : List String) : Bool :=
  headers.length == 2 && (headers.any fun h => strIncl h "как есть") &&
  (headers.any fun h => strIncl h "как будет")

/-- Match of `/[•●]\s*Функция:/i` at the head of a character list
(after lowercasing). -/
def bulletFuncAt : List Char → Bool
  | [] => false
  | c :: cs => (c == '•' || c == '●') && startsL "функция:".data (dropWs cs)

/-- Search `/[•●]\s*Функция:/i` anywhere in the list. -/
def bulletFuncSearch : List Char → Bool
  | [] => false
  | c :: cs => bulletFuncAt (c :: cs) || bulletFuncSearch cs

/-- JS `firstCellText.match(/[•●]\s*Функция:/i) !== null`. -/
def bulletFuncMatch (s : String) : Bool :=
  bulletFuncSearch (jsToLower s).data

/-- The headers list `SectionRecognizer.identifyTableType` computes from the
first row (empty when the table has no rows). -/
def inlineHeaders (t : Table) : List String :=
  match t.rows with
  | [] => []
  | r0 :: _ => r0.cells.map (fun c => jsTrimStr (jsToLower c.text))

/-- Text of the first cell of the first row ("" when absent). -/
def firstCellText (t : Table) : String :=
  match t.rows with
  | [] => ""
  | r0 :: _ => cellAt r0 0

/-- Source `SectionRecognizer.identifyTableType` (part_006 lines 194-228): the
inline three-way heuristic used for tables inside section content. -/
def sectionIdentifyTableType (t : Table) : String :=
  match t.rows with
  | [] => "regular"
  | r0 :: _ =>
    if r0.cells.length == 0 then "regular"
    else
      let headers := r0.cells.map (fun c => jsTrimStr (jsToLower c.text))
      if inlineTermsCond headers then "terms"
      else if inlineChangesCond headers then "changes"
      else if bulletFuncMatch (cellAt r0 0) then "function"
      else "regular"

/-- The function-table predicate as the spec/claim words it: 3+ rows, first
row exactly two columns, first-column labels of rows 0/1/2 equal to
"функция" / containing "задач" / equal to "сценарий", case-insensitively. -/
def specFunctionPred (t : Table) : Bool :=
  match t.rows with
  | r0 :: r1 :: r2 :: _ =>
    r0.cells.length == 2 &&
    jsToLower (jsTrimStr (cellAt r0 0)) == "функция" &&
    strIncl (jsToLower (jsTrimStr (cellAt r1 0))) "задач" &&
    jsToLower (jsTrimStr (cellAt r2 0)) == "сценарий"
  | _ => false

/-- ASCII letter (the `/i`-insensitive `[A-Z]` class). -/
def isAsciiLetter (c : Char) : Bool :=
  (65 ≤ c.toNat && c.toNat ≤ 90) || (97 ≤ c.toNat && c.toNat ≤ 122)

/-- ASCII digit (`\d`). -/
def isAsciiDigit (c : Char) : Bool :=
  48 ≤ c.toNat && c.toNat ≤ 57

/-- Try to match `/([A-Z]+-\d+)/i` starting exactly here.  The greedy
letter/digit runs cannot backtrack successfully for this pattern, so the
match is: maximal letter run, a literal '-', then maximal digit run. -/
def taskNumAt (cs : List Char) : Option (List Char) :=
  let letters := cs.takeWhile isAsciiLetter
  if letters.isEmpty then none
  else
    match cs.drop letters.length with
    | '-' :: rest =>
      let ds := rest.takeWhile isAsciiDigit
      if ds.isEmpty then none else some (letters ++ '-' :: ds)
    | _ => none

/-- First (leftmost) match of `/([A-Z]+-\d+)/i` in the list, as JS
`String.prototype.match` returns it. -/
def findTaskNum : List Char → Option (List Char)
  | [] => none
  | c :: cs =>
    match taskNumAt (c :: cs) with
    | some m => some m
    | none => findTaskNum cs

/-- JS `m.toLowerCase().replace(/[^a-z0-9]/g, '-')`. -/
def slugChars (m : List Char) : List Char :=
  (m.map lowChar).map fun c =>
    if (97 ≤ c.toNat && c.toNat ≤ 122) || isAsciiDigit c then c else '-'

/-- Character kept by `replace(/[^\wа-яё\s]/gi, '')`: ASCII word characters,
Cyrillic а-я/ё (either case, because of the `i` flag), or whitespace. -/
def keepWordCh (c : Char) : Bool :=
  isAsciiLetter c || isAsciiDigit c || c == '_' ||
  (0x430 ≤ c.toNat && c.toNat ≤ 0x44F) || c.toNat == 0x451 ||
  (0x410 ≤ c.toNat && c.toNat ≤ 0x42F) || c.toNat == 0x401 ||
  isJsSpace c

/-- The `funcWords` expression of `FunctionTableRecognizer.generateId`
(function-table.js lines 127-133): lowercase, strip non-word characters,
split on whitespace, keep words longer than 3 characters, first 3, joined
with '-'. -/
def funcWordsOf (functionText : String) : String :=
  let ws := splitWsAux ((jsToLower functionText).data.filter keepWordCh) []
  String.intercalate "-" (((ws.filter fun w => w.length > 3).take 3).map String.mk)

/-- Source `FunctionTableRecognizer.generateId` (function-table.js lines 124-147). -/
def generateId (taskText functionText : String) : String :=
  let viaFunc : Option String :=
    if functionText ≠ "" then
      let fw := funcWordsOf functionText
      if fw ≠ "" then some ("func-" ++ fw) else none
    else none
  match viaFunc with
  | some s => s
  | none =>
    match findTaskNum taskText.data with
    | some m => "func-" ++ String.mk (slugChars m)
    | none => "func"

/-- Source `MetadataRecognizer.parseYesNo` (part_006 lines 450-453). -/
def parseYesNo (text : String) : Bool :=
  let lower := jsTrimStr (jsToLower text)
  lower == "да" || lower == "yes"

/-- The impure `new Date()` of the recognizer, made explicit: a calendar
date as JS exposes it (`getDate()`, zero-based `getMonth()`, full year). -/
structure JsDate where
  day : Nat
  monthIndex : Nat
  year : Nat
deriving DecidableEq, Repr

/-- JS `String(n).padStart(2, '0')`. -/
def pad2 (s : String) : String :=
  if s.length < 2 then String.mk (List.replicate (2 - s.length) '0') ++ s else s

/-- Source `MetadataRecognizer.formatDate` (part_006 lines 486-491): DD.MM.YYYY. -/
def formatDate (d : JsDate) : String :=
  pad2 (jsNatStr d.day) ++ "." ++ pad2 (jsNatStr (d.monthIndex + 1)) ++ "." ++
  jsNatStr d.year

/-- One row of the history table (`HistoryEntry`). -/
structure HistoryEntry where
  version : String
  date : String
  comment : String
  author : String
deriving DecidableEq, Repr

/-- Source `MetadataRecognizer.getDefaultHistory` (part_006 lines 474-481). -/
def getDefaultHistory (now : JsDate) : List HistoryEntry :=
  [{ version := "1.0", date := formatDate now,
     comment := "Конвертировано из DOCX", author := "" }]

/-- The guard of `extractHistory`: history table absent or shorter than two
rows. -/
def historyShort : Option Table → Bool
  | none => true
  | some t => t.rows.length < 2

/-- Source `MetadataRecognizer.extractHistory` (part_006 lines 387-408), with the
impure current date passed explicitly. -/
def extractHistory (table : Option Table) (now : JsDate) : List HistoryEntry :=
  match table with
  | none => getDefaultHistory now
  | some t =>
    if t.rows.length < 2 then getDefaultHistory now
    else
      let history := (t.rows.drop 1).filterMap fun row =>
        if row.cells.length < 3 then none
        else
          some { version := jsTrimStr (cellAt row 0),
                 date := jsTrimStr (cellAt row 1),
                 comment := jsTrimStr (cellAt row 2),
                 author := jsTrimStr (cellAt row 3) }
      if history.length > 0 then history else getDefaultHistory now

/-- A validation issue (`{ code, message, severity }`). -/
structure Issue where
  code : String
  message : String
  severity : String
deriving DecidableEq, Repr

/-- Payload of `addError`. -/
def errIssue (c m : String) : Issue := ⟨c, m, "error"⟩

/-- Payload of `addWarning`. -/
def warnIssue (c m : String) : Issue := ⟨c, m, "warning"⟩

/-- Consultant record of the metadata. -/
structure Consultant where
  name : String
  email : String
deriving DecidableEq, Repr

/-- Record `DocumentMetadata` as the validator consumes it. -/
structure Metadata where
  shortName : String
  organization : String
  createdDate : String
  consultant : Option Consultant
  itSolutions : List String
  itSystems : List String
  processKT : Bool
  processPDn : Bool
deriving DecidableEq, Repr

/-- A recognized section as the validator consumes it (`parent` is the
level-2 linkage field the validator probes; the recognizer never sets it). -/
structure Section where
  id : String
  title : String
  level : Nat
  parent : Option String
deriving DecidableEq, Repr

/-- An image entry (`{ filename, contentType, data }`). -/
structure Image where
  filename : String
  contentType : String
  data : Option (List Nat)
deriving DecidableEq, Repr

/-- JS `!img.data || img.data.length === 0`. -/
def imgDataEmpty (img : Image) : Bool :=
  match img.data with
  | none => true
  | some l => l.length == 0

/-- The recognized document handed to `DocumentValidator.validate`. -/
structure RecognizedDoc where
  metadata : Option Metadata
  history : List HistoryEntry
  sections : List Section
  images : Option (List Image)
deriving DecidableEq, Repr

/-- The regex `/^\d{2}\.\d{2}\.\d{4}$/` of `validateMetadata`. -/
def matchesDatePattern (s : String) : Bool :=
  match s.data with
  | [a, b, c, d, e, f, g, h, i, j] =>
    isAsciiDigit a && isAsciiDigit b && c == '.' && isAsciiDigit d &&
    isAsciiDigit e && f == '.' && isAsciiDigit g && isAsciiDigit h &&
    isAsciiDigit i && isAsciiDigit j
  | _ => false

/-- JS `!v || v.trim() === ''`. -/
def blank (v : String) : Bool :=
  v == "" || jsTrimStr v == ""

/-- Issues of one required-field check of `validateMetadata`. -/
def requiredFieldIssues (strict : Bool) (v label : String) :
    List Issue × List Issue :=
  if blank v then
    if strict then
      ([errIssue "METADATA_REQUIRED_FIELD" ("Не заполнено обязательное поле: " ++ label)], [])
    else
      ([], [warnIssue "METADATA_REQUIRED_FIELD" ("Рекомендуется заполнить поле: " ++ label)])
  else ([], [])

/-- Append a pair of (errors, warnings) accumulators. -/
def pcat (a b : List Issue × List Issue) : List Issue × List Issue :=
  (a.1 ++ b.1, a.2 ++ b.2)

/-- The consultant block of `validateMetadata` (validator.js lines 70-89). -/
def consultantIssues (strict : Bool) : Option Consultant → List Issue × List Issue
  | none =>
    if strict then
      ([errIssue "METADATA_CONSULTANT_MISSING" "Информация о консультанте отсутствует"], [])
    else
      ([], [warnIssue "METADATA_CONSULTANT_MISSING" "Рекомендуется указать консультанта"])
  | some c =>
    pcat
      (if blank c.name || c.name == "Неизвестно" then
        if strict then
          ([errIssue "METADATA_CONSULTANT_NAME" "Не указано имя консультанта"], [])
        else
          ([], [warnIssue "METADATA_CONSULTANT_NAME" "Рекомендуется указать имя консультанта"])
       else ([], []))
      (if blank c.email then
        ([], [warnIssue "METADATA_CONSULTANT_EMAIL" "Не указан email консультанта"])
       else ([], []))

/-- The date-format block of `validateMetadata` (validator.js lines 92-97):
a warning in every mode. -/
def dateFormatIssues (createdDate : String) : List Issue × List Issue :=
  if createdDate ≠ "" && ¬ matchesDatePattern createdDate then
    ([], [warnIssue "METADATA_DATE_FORMAT"
      ("Дата создания имеет нестандартный формат: " ++ createdDate ++
       " (ожидается DD.MM.YYYY)")])
  else ([], [])

/-- Source `DocumentValidator.validateMetadata` (validator.js lines 46-98) as its
contributions to the `errors` / `warnings` accumulators, in order. -/
def validateMetadataEW (strict : Bool) (md : Option Metadata) :
    List Issue × List Issue :=
  match md with
  | none => ([errIssue "METADATA_MISSING" "Метаданные документа отсутствуют"], [])
  | some m =>
    pcat (requiredFieldIssues strict m.shortName "Краткое название (shortName)")
      (pcat (requiredFieldIssues strict m.organization "Организация (organization)")
        (pcat (requiredFieldIssues strict m.createdDate "Дата создания (createdDate)")
          (pcat (consultantIssues strict m.consultant)
            (dateFormatIssues m.createdDate))))

/-- Per-entry warnings of `validateHistory`, with the running index. -/
def historyEntryWarns : Nat → List HistoryEntry → List Issue
  | _, [] => []
  | i, e :: rest =>
    (if blank e.version then
      [warnIssue "HISTORY_VERSION_MISSING"
        ("Запись истории #" ++ jsNatStr (i + 1) ++ ": не указана версия")]
     else []) ++
    (if blank e.date then
      [warnIssue "HISTORY_DATE_MISSING"
        ("Запись истории #" ++ jsNatStr (i + 1) ++ ": не указана дата")]
     else []) ++
    (if blank e.comment then
      [warnIssue "HISTORY_COMMENT_MISSING"
        ("Запись истории #" ++ jsNatStr (i + 1) ++ ": не указан комментарий")]
     else []) ++
    historyEntryWarns (i + 1) rest

/-- Source `DocumentValidator.validateHistory` (validator.js lines 103-129). -/
def validateHistoryEW (strict : Bool) (history : List HistoryEntry) :
    List Issue × List Issue :=
  if history.length == 0 then
    if strict then
      ([errIssue "HISTORY_MISSING" "История изменений документа отсутствует"], [])
    else
      ([], [warnIssue "HISTORY_MISSING" "Рекомендуется добавить историю изменений"])
  else ([], historyEntryWarns 0 history)

/-- Matcher for `\d+` then `.` then `\s*`, the shared head of the ten required-section
regexes (digit run is maximal, as the regex engine effectively enforces here). -/
def stripNumDotWs (cs : List Char) : Option (List Char) :=
  match cs with
  | c :: rest =>
    if isAsciiDigit c then
      match rest.dropWhile isAsciiDigit with
      | '.' :: rest2 => some (dropWs rest2)
      | _ => none
    else none
  | [] => none

/-- Line-break characters excluded by `.` in a JS regex without the `s` flag. -/
def isLineBreakCh (c : Char) : Bool :=
  c == '\n' || c == '\r' || c.toNat == 0x2028 || c.toNat == 0x2029

/-- Test `requiredSections[i].pattern.test(title)` of `validateSections`
(validator.js lines 141-152), case-insensitively via lowering. -/
def secMatchIdx (i : Nat) (title : String) : Bool :=
  match stripNumDotWs (jsToLower title).data with
  | none => false
  | some rest =>
    match i with
    | 0 => startsL "термины и определения".data rest || startsL "глоссарий".data rest
    | 1 => startsL "исходные данные задания".data rest
    | 2 => startsL "изменение функционала системы".data rest
    | 3 =>
      match dropPre "описание изменений в ит".data rest with
      | some r2 =>
        startsL "системе".data r2 ||
        (match r2 with
         | c :: r3 => (c == '-' || c == ' ') && startsL "системе".data r3
         | [] => false)
      | none => false
    | 4 => startsL "описание изменений в интеграционных механизмах".data rest
    | 5 =>
      match dropPre "описание изменений".data rest with
      | some r2 => hasSubL "пдн".data (r2.takeWhile fun c => ¬ isLineBreakCh c)
      | none => false
    | 6 => startsL "входные формы".data rest
    | 7 => startsL "выходные формы".data rest
    | 8 => startsL "описание изменений в ролевой модели".data rest
    | 9 =>
      match dropPre "приложени".data rest with
      | some (c :: _) => c == 'я' || c == 'е'
      | _ => false
    | _ => false

/-- The `name` fields of the ten required sections, in order. -/
def secPatNames : List String :=
  ["1. Термины и определения",
   "2. Исходные данные задания",
   "3. Изменение функционала системы",
   "4. Описание изменений в ИТ-системе",
   "5. Описание изменений в интеграционных механизмах",
   "6. Описание изменений, состава обрабатываемых ПДн",
   "7. Входные формы",
   "8. Выходные формы",
   "9. Описание изменений в ролевой модели",
   "10. Приложения"]

/-- The `missingSections` array `validateSections` accumulates: names of
required patterns matched by no level-1 section title. -/
def missingSectionNames (sections : List Section) : List String :=
  (List.range 10).filterMap fun i =>
    if sections.any (fun s => s.level == 1 && s.title ≠ "" && secMatchIdx i s.title)
    then none
    else secPatNames.get? i

/-- The aggregated `SECTIONS_REQUIRED_MISSING` message. -/
def sectionsMissingMessage (missing : List String) : String :=
  "Отсутствуют обязательные разделы (" ++ jsNatStr missing.length ++ "):\n  - " ++
  String.intercalate "\n  - " missing

/-- Source `DocumentValidator.validateSections` (validator.js lines 134-200). -/
def validateSectionsEW (sections : List Section) : List Issue × List Issue :=
  if sections.length == 0 then
    ([errIssue "SECTIONS_MISSING" "Разделы документа отсутствуют"], [])
  else
    let missing := missingSectionNames sections
    let errs :=
      if missing.length > 0 then
        [errIssue "SECTIONS_REQUIRED_MISSING" (sectionsMissingMessage missing)]
      else []
    let warns :=
      (sections.filter fun s => s.level == 1).filterMap fun s =>
        if secMatchIdx 1 s.title &&
           ¬ sections.any (fun s2 => s2.level == 2 && s2.parent == some s.id) then
          some (warnIssue "SECTION_NO_SUBSECTIONS"
            ("Раздел \"" ++ s.title ++
             "\" обычно содержит подразделы (2.1 Бизнес-цель, 2.2 Текущая ситуация и т.д.)"))
        else none
    (errs, warns)

/-- Per-image issues of `validateImages`, with the running index. -/
def imageIssuesFrom : Nat → List Image → List Issue × List Issue
  | _, [] => ([], [])
  | i, img :: rest =>
    let here : List Issue × List Issue :=
      ((if imgDataEmpty img then
          [errIssue "IMAGE_EMPTY" ("Изображение \"" ++ img.filename ++ "\": нет данных")]
        else []),
       (if img.filename == "" then
          [warnIssue "IMAGE_NO_FILENAME"
            ("Изображение #" ++ jsNatStr (i + 1) ++ ": отсутствует имя файла")]
        else []) ++
       (if img.contentType == "" then
          [warnIssue "IMAGE_NO_CONTENT_TYPE"
            ("Изображение \"" ++ img.filename ++ "\": не определён тип содержимого")]
        else []))
    pcat here (imageIssuesFrom (i + 1) rest)

/-- Source `DocumentValidator.validateImages` (validator.js lines 205-223). -/
def validateImagesEW : Option (List Image) → List Issue × List Issue
  | none => ([], [])
  | some imgs => imageIssuesFrom 0 imgs

/-- Validation result (`{ valid, errors, warnings }`). -/
structure ValidationResult where
  valid : Bool
  errors : List Issue
  warnings : List Issue
deriving DecidableEq, Repr

/-- Source `DocumentValidator.validate` (validator.js lines 18-41): metadata, then
history, then (strict only) sections, then images; valid iff no errors. -/
def validateDoc (strict : Bool) (doc : RecognizedDoc) : ValidationResult :=
  let p :=
    pcat (validateMetadataEW strict doc.metadata)
      (pcat (validateHistoryEW strict doc.history)
        (pcat (if strict then validateSectionsEW doc.sections else ([], []))
          (validateImagesEW doc.images)))
  { valid := p.1.length == 0, errors := p.1, warnings := p.2 }

/-- No image entry with absent/empty binary data. -/
def noEmptyImage : Option (List Image) → Bool
  | none => true
  | some imgs => imgs.all fun i => !(imgDataEmpty i)

/-- The rendered relationship id `` `rId${n}` ``. -/
def mkRId (n : Nat) : String :=
  "rId" ++ jsNatStr n

/-- The hyperlink part of the state owned by `createAssemblyContext`
(part_016 lines 173-189): the url→rId `Map` (insertion-ordered) and the
`hyperlinkIdCounter`, initially 100. -/
structure HlState where
  pairs : List (String × String)
  counter : Nat
deriving DecidableEq, Repr

/-- Lookup `hyperlinks.get(url)` (JS `Map` lookup). -/
def findUrl (u : String) : List (String × String) → Option String
  | [] => none
  | p :: rest => if p.1 = u then some p.2 else findUrl u rest

/-- Source `addHyperlink(url)` (part_016 lines 182-189): reuse the registered id,
or allocate `` `rId${hyperlinkIdCounter++}` `` and register it. -/
def addHyperlink (st : HlState) (url : String) : String × HlState :=
  match findUrl url st.pairs with
  | some r => (r, st)
  | none =>
    let r := mkRId st.counter
    (r, ⟨st.pairs ++ [(url, r)], st.counter + 1⟩)

/-- Run a sequence of `addHyperlink` calls, returning the ids in order. -/
def runAdds (st : HlState) : List String → List String × HlState
  | [] => ([], st)
  | u :: us =>
    let p := addHyperlink st u
    let q := runAdds p.2 us
    (p.1 :: q.1, q.2)

/-- The fresh state of `createAssemblyContext`. -/
def initHl : HlState := ⟨[], 100⟩

/-- Ids returned by a call sequence against one fresh build context. -/
def runIds (urls : List String) : List String :=
  (runAdds initHl urls).1

/-- The context invariant: stored values render distinct counters, all below
the current counter. -/
def HlInv (st : HlState) : Prop :=
  ∃ ks : List Nat, ks.Nodup ∧ (∀ k ∈ ks, k < st.counter) ∧
    st.pairs.map Prod.snd = ks.map mkRId

/-! ## Concrete instances used in counterexamples and witnesses -/

/-- A well-formed metadata record (all required fields filled). -/
def fullMeta : Metadata where
  shortName := "Док"
  organization := "Орг"
  createdDate := "15.03.2024"
  consultant := some ⟨"Иван Иванов", "i@x.ru"⟩
  itSolutions := []
  itSystems := []
  processKT := false
  processPDn := false

/-- Level-1 sections with all ten canonical titles. -/
def canonSections : List Section :=
  secPatNames.map fun t => ⟨t, t, 1, none⟩

/-- Level-1 sections with only the first seven canonical titles:
sections 8, 9 and 10 are missing. -/
def sevenSections : List Section :=
  (secPatNames.take 7).map fun t => ⟨t, t, 1, none⟩

/-- A complete history entry. -/
def fullHistoryEntry : HistoryEntry :=
  ⟨"1.0", "15.03.2024", "Создан", "Иван"⟩

/-- A document missing 3 of the 10 canonical sections and otherwise fine. -/
def missingThreeDoc : RecognizedDoc where
  metadata := some fullMeta
  history := [fullHistoryEntry]
  sections := sevenSections
  images := none

/-- Variant of `fullMeta` with a `createdDate` that does not match `DD.MM.YYYY`. -/
def badDateMeta : Metadata where
  shortName := "Док"
  organization := "Орг"
  createdDate := "2024-01-15"
  consultant := some ⟨"Иван Иванов", "i@x.ru"⟩
  itSolutions := []
  itSystems := []
  processKT := false
  processPDn := false

/-- A document whose only defect is the malformed `createdDate`. -/
def badDateDoc : RecognizedDoc where
  metadata := some badDateMeta
  history := [fullHistoryEntry]
  sections := canonSections
  images := none

/-- A document carrying one image entry with no binary data. -/
def emptyImgDoc : RecognizedDoc where
  metadata := some fullMeta
  history := [fullHistoryEntry]
  sections := canonSections
  images := some [⟨"pic.png", "image/png", none⟩]

/-- A function-shaped table whose description cell mentions both "термин"
and "определение", so two classification predicates hold at once. -/
def overlapTable : Table :=
  ⟨[⟨[⟨"Функция"⟩, ⟨"Термин и определение правил"⟩]⟩,
    ⟨[⟨"Задача 1"⟩, ⟨"x"⟩]⟩,
    ⟨[⟨"Сценарий"⟩, ⟨"y"⟩]⟩]⟩

/-- A canonical function table (labels Функция/Задача/Сценарий, plain
description text, no bullet marker in the first cell). -/
def funcTable : Table :=
  ⟨[⟨[⟨"Функция"⟩, ⟨"Отправка уведомлений"⟩]⟩,
    ⟨[⟨"Задача"⟩, ⟨"PROJ-1"⟩]⟩,
    ⟨[⟨"Сценарий"⟩, ⟨"шаги"⟩]⟩]⟩

/-- A hyperlink-registration call sequence: a repeated url and a distinct one. -/
def demoUrls : List String :=
  ["https://a.example", "https://b.example", "https://a.example"]

/-! ## Claims -/

/-- Claim C7: `parseYesNo` maps "Да" to true, "да" to true, "Нет" to false,
the empty string to false, and "yes" to true. -/
theorem claim7_parseYesNo_mapping :
    parseYesNo "Да" = true ∧ parseYesNo "да" = true ∧ parseYesNo "Нет" = false ∧
    parseYesNo "" = false ∧ parseYesNo "yes" = true := by
  decide

/-- Claim C2 counterexample: a single table satisfies both the function
predicate and the terms predicate, so the three classification predicates
are not mutually exclusive. -/
theorem claim2_counterexample_overlap :
    functionCanRecognize overlapTable = true ∧
    termsCanRecognize overlapTable = true := by
  decide

/-- Claim C2 (amended): the three predicates may overlap, but the dispatch
still assigns exactly one tag by fixed priority: a table satisfying the
function predicate is tagged "function" whatever else holds; with it false,
terms wins over changes. -/
theorem claim2_priority_resolves_overlap : ∀ t : Table,
    (functionCanRecognize t = true → identifyType t = "function") ∧
    (functionCanRecognize t = false → termsCanRecognize t = true →
      identifyType t = "terms") ∧
    (functionCanRecognize t = false → termsCanRecognize t = false →
      changesCanRecognize t = true → identifyType t = "changes") := by
  intro t
  refine ⟨fun hf => ?_, fun hf ht => ?_, fun hf ht hc => ?_⟩
  · simp [identifyType, recognizerList, List.find?, hf]
  · simp [identifyType, recognizerList, List.find?, hf, ht]
  · simp [identifyType, recognizerList, List.find?, hf, ht, hc]

/-- Claim C2 witness: the overlapping table is classified "function". -/
theorem claim2_priority_resolves_overlap_witness :
    identifyType overlapTable = "function" :=
  (claim2_priority_resolves_overlap overlapTable).1 (by decide)

/-- Claim C3 counterexample: on a canonical function table the inline
heuristic of `SectionRecognizer` answers "regular" while the dispatch of
`TableRecognizer` answers "function" — the two classifiers differ. -/
theorem claim3_counterexample_divergence :
    identifyType funcTable = "function" ∧
    sectionIdentifyTableType funcTable = "regular" ∧
    sectionIdentifyTableType funcTable ≠ identifyType funcTable := by
  decide

/-- Claim C3 (amended): the inline heuristic of `SectionRecognizer` is a
different classifier from `TableRecognizer`'s dispatch: every table
satisfying the function predicate whose headers trigger neither inline
keyword pair and whose first cell carries no "•/● Функция:" marker is
typed "function" by the dispatch but "regular" by the inline heuristic. -/
theorem claim3_inline_heuristic_differs : ∀ t : Table,
    functionCanRecognize t = true →
    inlineTermsCond (inlineHeaders t) = false →
    inlineChangesCond (inlineHeaders t) = false →
    bulletFuncMatch (firstCellText t) = false →
    sectionIdentifyTableType t = "regular" ∧ identifyType t = "function" := by
  intro t hf hterms hchanges hbullet
  refine ⟨?_, by simp [identifyType, recognizerList, List.find?, hf]⟩
  rcases t with ⟨rows⟩
  rcases rows with _ | ⟨r0, rest⟩
  · simp [functionCanRecognize] at hf
  rcases rest with _ | ⟨r1, rest⟩
  · simp [functionCanRecognize] at hf
  rcases rest with _ | ⟨r2, rest⟩
  · simp [functionCanRecognize] at hf
  have hc2 : r0.cells.length = 2 := by
    by_contra hne
    simp [functionCanRecognize, hne] at hf
  simp only [inlineHeaders] at hterms hchanges
  simp only [firstCellText] at hbullet
  simp [sectionIdentifyTableType, hc2, hterms, hchanges, hbullet]

/-- Claim C3 witness: the concrete canonical function table instantiates
the divergence. -/
theorem claim3_inline_heuristic_differs_witness :
    sectionIdentifyTableType funcTable = "regular" ∧
    identifyType funcTable = "function" :=
  claim3_inline_heuristic_differs funcTable (by decide) (by decide) (by decide)
    (by decide)

/-- Claim C4: `TableRecognizer` classification tries function, then terms,
then changes, returning the first match and falling back to "regular"; and
the function predicate of the source coincides with the spec-worded shape
test (3+ rows, first row two columns, labels функция / задач / сценарий). -/
theorem claim4_priority_order : ∀ t : Table,
    identifyType t =
      (if functionCanRecognize t then "function"
       else if termsCanRecognize t then "terms"
       else if changesCanRecognize t then "changes"
       else "regular") ∧
    functionCanRecognize t = specFunctionPred t := by
  intro t
  constructor
  · cases hf : functionCanRecognize t <;>
      cases ht : termsCanRecognize t <;>
        cases hc : changesCanRecognize t <;>
          simp [identifyType, recognizerList, List.find?, hf, ht, hc]
  · rcases t with ⟨rows⟩
    rcases rows with _ | ⟨r0, rest⟩
    · simp [functionCanRecognize, specFunctionPred]
    rcases rest with _ | ⟨r1, rest⟩
    · simp [functionCanRecognize, specFunctionPred]
    rcases rest with _ | ⟨r2, rest⟩
    · simp [functionCanRecognize, specFunctionPred]
    by_cases hc2 : r0.cells.length = 2
    · simp [functionCanRecognize, specFunctionPred, hc2]
    · simp [functionCanRecognize, specFunctionPred, hc2]

/-- Claim C8: the anchor id prefers the slugified function-description words;
only when those are empty does the task-number pattern apply; when both are
empty the id is the literal "func". -/
theorem claim8_generateId_preference : ∀ (task fn : String),
    (funcWordsOf fn ≠ "" → generateId task fn = "func-" ++ funcWordsOf fn) ∧
    (funcWordsOf fn = "" →
      (∀ m, findTaskNum task.data = some m →
        generateId task fn = "func-" ++ String.mk (slugChars m)) ∧
      (findTaskNum task.data = none → generateId task fn = "func")) := by
  intro task fn
  constructor
  · intro hfw
    have hfn : fn ≠ "" := by
      intro h
      rw [h] at hfw
      exact hfw (by decide)
    simp [generateId, hfn, hfw]
  · intro hfw
    by_cases hfn : fn = ""
    · exact ⟨fun m hm => by simp [generateId, hfn, hm],
             fun hm => by simp [generateId, hfn, hm]⟩
    · exact ⟨fun m hm => by simp [generateId, hfn, hfw, hm],
             fun hm => by simp [generateId, hfn, hfw, hm]⟩

/-- Claim C8 witness: concrete instances of the three priority cases. -/
theorem claim8_generateId_preference_witness :
    generateId "x" "Согласование заявки клиента" =
      "func-" ++ funcWordsOf "Согласование заявки клиента" ∧
    generateId "См. PROJ-42 там" "" = "func-" ++ String.mk (slugChars "PROJ-42".data) ∧
    generateId "" "" = "func" :=
  ⟨(claim8_generateId_preference "x" "Согласование заявки клиента").1 (by decide),
   ((claim8_generateId_preference "См. PROJ-42 там" "").2 (by decide)).1
     "PROJ-42".data (by decide),
   ((claim8_generateId_preference "" "").2 (by decide)).2 (by decide)⟩

/-- Membership in the image errors: an image with empty data contributes its
`IMAGE_EMPTY` error wherever it sits in the list. -/
theorem imageIssuesFrom_mem_empty : ∀ (k : Nat) (imgs : List Image) (img : Image),
    img ∈ imgs → imgDataEmpty img = true →
    errIssue "IMAGE_EMPTY" ("Изображение \"" ++ img.filename ++ "\": нет данных") ∈
      (imageIssuesFrom k imgs).1 := by
  intro k imgs
  induction imgs generalizing k with
  | nil => intro img h _; simp at h
  | cons a rest ih =>
    intro img hmem hempty
    rcases List.mem_cons.mp hmem with rfl | htail
    · simp only [imageIssuesFrom, pcat, List.mem_append]
      left
      simp [hempty]
    · simp only [imageIssuesFrom, pcat, List.mem_append]
      exact Or.inr (ih (k + 1) img htail hempty)

/-- Claim C6: an image with absent or empty binary data always produces an
`IMAGE_EMPTY` error, in strict and non-strict mode alike, and validation
fails. -/
theorem claim6_image_empty_always_error :
    ∀ (strict : Bool) (doc : RecognizedDoc) (imgs : List Image) (img : Image),
    doc.images = some imgs → img ∈ imgs → imgDataEmpty img = true →
    (validateDoc strict doc).valid = false ∧
    ∃ e ∈ (validateDoc strict doc).errors, e.code = "IMAGE_EMPTY" := by
  intro strict doc imgs img hdoc hmem hempty
  have hin : errIssue "IMAGE_EMPTY" ("Изображение \"" ++ img.filename ++ "\": нет данных") ∈
      (validateImagesEW doc.images).1 := by
    rw [hdoc]
    exact imageIssuesFrom_mem_empty 0 imgs img hmem hempty
  have hinerr : errIssue "IMAGE_EMPTY" ("Изображение \"" ++ img.filename ++ "\": нет данных") ∈
      (validateDoc strict doc).errors := by
    simp only [validateDoc, pcat, List.mem_append]
    exact Or.inr (Or.inr (Or.inr hin))
  have hne : (validateDoc strict doc).errors ≠ [] := List.ne_nil_of_mem hinerr
  refine ⟨?_, ⟨_, hinerr, rfl⟩⟩
  have hv : (validateDoc strict doc).valid =
      ((validateDoc strict doc).errors.length == 0) := rfl
  rw [hv]
  cases hE : (validateDoc strict doc).errors with
  | nil => exact absurd hE hne
  | cons a l => simp

/-- Claim C6 witness: the concrete empty-image document fails in strict mode. -/
theorem claim6_image_empty_always_error_witness :
    (validateDoc true emptyImgDoc).valid = false ∧
    ∃ e ∈ (validateDoc true emptyImgDoc).errors, e.code = "IMAGE_EMPTY" :=
  claim6_image_empty_always_error true emptyImgDoc
    [⟨"pic.png", "image/png", none⟩] ⟨"pic.png", "image/png", none⟩
    rfl (by decide) (by decide)

/-- Errors of a required-field check carry code `METADATA_REQUIRED_FIELD`. -/
theorem requiredFieldIssues_err_code (st : Bool) (v l : String) (e : Issue)
    (h : e ∈ (requiredFieldIssues st v l).1) : e.code = "METADATA_REQUIRED_FIELD" := by
  unfold requiredFieldIssues at h
  split at h
  · split at h
    · simp at h
      subst h
      rfl
    · simp at h
  · simp at h

/-- A required-field check emits no error in non-strict mode. -/
theorem requiredFieldIssues_false_fst (v l : String) :
    (requiredFieldIssues false v l).1 = [] := by
  unfold requiredFieldIssues
  split <;> rfl

/-- Errors of the consultant block: one of the two consultant codes. -/
theorem consultantIssues_err_code (st : Bool) (oc : Option Consultant) (e : Issue)
    (h : e ∈ (consultantIssues st oc).1) :
    e.code = "METADATA_CONSULTANT_MISSING" ∨ e.code = "METADATA_CONSULTANT_NAME" := by
  rcases oc with _ | c
  · simp only [consultantIssues] at h
    split at h
    · simp at h
      subst h
      exact Or.inl rfl
    · simp at h
  · simp only [consultantIssues, pcat, List.mem_append] at h
    rcases h with h | h
    · split at h
      · split at h
        · simp at h
          subst h
          exact Or.inr rfl
        · simp at h
      · simp at h
    · split at h <;> simp at h

/-- The consultant block emits no error in non-strict mode. -/
theorem consultantIssues_false_fst (oc : Option Consultant) :
    (consultantIssues false oc).1 = [] := by
  rcases oc with _ | c
  · rfl
  · simp only [consultantIssues, pcat]
    refine List.append_eq_nil.mpr ⟨?_, ?_⟩
    · split
      · simp
      · rfl
    · split <;> rfl

/-- The date-format block never emits an error. -/
theorem dateFormatIssues_fst (d : String) : (dateFormatIssues d).1 = [] := by
  unfold dateFormatIssues
  split <;> rfl

/-- Every metadata validation error carries one of the four metadata codes. -/
theorem metaEW_err_code (st : Bool) (md : Option Metadata) (e : Issue)
    (h : e ∈ (validateMetadataEW st md).1) :
    e.code = "METADATA_MISSING" ∨ e.code = "METADATA_REQUIRED_FIELD" ∨
    e.code = "METADATA_CONSULTANT_MISSING" ∨ e.code = "METADATA_CONSULTANT_NAME" := by
  rcases md with _ | m
  · simp only [validateMetadataEW, List.mem_singleton] at h
    subst h
    exact Or.inl rfl
  · simp only [validateMetadataEW, pcat, List.mem_append] at h
    rcases h with h | h | h | h | h
    · exact Or.inr (Or.inl (requiredFieldIssues_err_code _ _ _ _ h))
    · exact Or.inr (Or.inl (requiredFieldIssues_err_code _ _ _ _ h))
    · exact Or.inr (Or.inl (requiredFieldIssues_err_code _ _ _ _ h))
    · exact Or.inr (Or.inr (consultantIssues_err_code _ _ _ h))
    · rw [dateFormatIssues_fst] at h
      simp at h

/-- In non-strict mode metadata validation of a present record emits no
errors at all. -/
theorem metaEW_false_fst (m : Metadata) :
    (validateMetadataEW false (some m)).1 = [] := by
  simp only [validateMetadataEW, pcat]
  rw [requiredFieldIssues_false_fst, requiredFieldIssues_false_fst,
    requiredFieldIssues_false_fst, consultantIssues_false_fst, dateFormatIssues_fst]
  rfl

/-- Every history validation error carries code `HISTORY_MISSING`. -/
theorem histEW_err_code (st : Bool) (hs : List HistoryEntry) (e : Issue)
    (h : e ∈ (validateHistoryEW st hs).1) : e.code = "HISTORY_MISSING" := by
  unfold validateHistoryEW at h
  split at h
  · split at h
    · simp at h
      subst h
      rfl
    · simp at h
  · simp at h

/-- In non-strict mode history validation emits no errors. -/
theorem histEW_false_fst (hs : List HistoryEntry) :
    (validateHistoryEW false hs).1 = [] := by
  unfold validateHistoryEW
  split <;> rfl

/-- Every section validation error carries one of the two section codes. -/
theorem sectEW_err_code (ss : List Section) (e : Issue)
    (h : e ∈ (validateSectionsEW ss).1) :
    e.code = "SECTIONS_MISSING" ∨ e.code = "SECTIONS_REQUIRED_MISSING" := by
  simp only [validateSectionsEW] at h
  split at h
  · simp at h
    subst h
    exact Or.inl rfl
  · split at h
    · simp at h
      subst h
      exact Or.inr rfl
    · simp at h

/-- Every image validation error carries code `IMAGE_EMPTY`. -/
theorem imageIssuesFrom_err_code : ∀ (k : Nat) (imgs : List Image) (e : Issue),
    e ∈ (imageIssuesFrom k imgs).1 → e.code = "IMAGE_EMPTY" := by
  intro k imgs
  induction imgs generalizing k with
  | nil => intro e h; simp [imageIssuesFrom] at h
  | cons a rest ih =>
    intro e h
    simp only [imageIssuesFrom, pcat, List.mem_append] at h
    rcases h with h | h
    · split at h
      · simp at h
        subst h
        rfl
      · simp at h
    · exact ih (k + 1) e h

/-- Image validation of data-complete images emits no errors. -/
theorem imageIssuesFrom_fst_nil : ∀ (k : Nat) (imgs : List Image),
    (∀ i ∈ imgs, imgDataEmpty i = false) → (imageIssuesFrom k imgs).1 = [] := by
  intro k imgs
  induction imgs generalizing k with
  | nil => intro _; rfl
  | cons a rest ih =>
    intro hall
    have ha : imgDataEmpty a = false := hall a (List.mem_cons_self a rest)
    simp only [imageIssuesFrom, pcat, ha]
    simp [ih (k + 1) (fun i hi => hall i (List.mem_cons_of_mem a hi))]

/-- Warnings of a required-field check carry code `METADATA_REQUIRED_FIELD`. -/
theorem requiredFieldIssues_warn_code (st : Bool) (v l : String) (w : Issue)
    (h : w ∈ (requiredFieldIssues st v l).2) : w.code = "METADATA_REQUIRED_FIELD" := by
  unfold requiredFieldIssues at h
  split at h
  · split at h
    · simp at h
    · simp at h
      subst h
      rfl
  · simp at h

/-- Warnings of the consultant block carry one of its three codes. -/
theorem consultantIssues_warn_code (st : Bool) (oc : Option Consultant) (w : Issue)
    (h : w ∈ (consultantIssues st oc).2) :
    w.code = "METADATA_CONSULTANT_MISSING" ∨ w.code = "METADATA_CONSULTANT_NAME" ∨
    w.code = "METADATA_CONSULTANT_EMAIL" := by
  rcases oc with _ | c
  · simp only [consultantIssues] at h
    split at h
    · simp at h
    · simp at h
      subst h
      exact Or.inl rfl
  · simp only [consultantIssues, pcat, List.mem_append] at h
    rcases h with h | h
    · split at h
      · split at h
        · simp at h
        · simp at h
          subst h
          exact Or.inr (Or.inl rfl)
      · simp at h
    · split at h
      · simp at h
        subst h
        exact Or.inr (Or.inr rfl)
      · simp at h

/-- Warnings of the date-format block carry code `METADATA_DATE_FORMAT`. -/
theorem dateFormatIssues_warn_code (d : String) (w : Issue)
    (h : w ∈ (dateFormatIssues d).2) : w.code = "METADATA_DATE_FORMAT" := by
  unfold dateFormatIssues at h
  split at h
  · simp at h
    subst h
    rfl
  · simp at h

/-- Every metadata validation warning carries one of the five metadata codes. -/
theorem metaEW_warn_code (st : Bool) (md : Option Metadata) (w : Issue)
    (h : w ∈ (validateMetadataEW st md).2) :
    w.code = "METADATA_REQUIRED_FIELD" ∨ w.code = "METADATA_CONSULTANT_MISSING" ∨
    w.code = "METADATA_CONSULTANT_NAME" ∨ w.code = "METADATA_CONSULTANT_EMAIL" ∨
    w.code = "METADATA_DATE_FORMAT" := by
  rcases md with _ | m
  · simp [validateMetadataEW] at h
  · simp only [validateMetadataEW, pcat, List.mem_append] at h
    rcases h with h | h | h | h | h
    · exact Or.inl (requiredFieldIssues_warn_code _ _ _ _ h)
    · exact Or.inl (requiredFieldIssues_warn_code _ _ _ _ h)
    · exact Or.inl (requiredFieldIssues_warn_code _ _ _ _ h)
    · rcases consultantIssues_warn_code _ _ _ h with h1 | h1 | h1
      · exact Or.inr (Or.inl h1)
      · exact Or.inr (Or.inr (Or.inl h1))
      · exact Or.inr (Or.inr (Or.inr (Or.inl h1)))
    · exact Or.inr (Or.inr (Or.inr (Or.inr (dateFormatIssues_warn_code _ _ h))))

/-- Per-entry history warnings carry one of the three per-entry codes. -/
theorem historyEntryWarns_code : ∀ (i : Nat) (hs : List HistoryEntry) (w : Issue),
    w ∈ historyEntryWarns i hs →
    w.code = "HISTORY_VERSION_MISSING" ∨ w.code = "HISTORY_DATE_MISSING" ∨
    w.code = "HISTORY_COMMENT_MISSING" := by
  intro i hs
  induction hs generalizing i with
  | nil => intro w h; simp [historyEntryWarns] at h
  | cons a rest ih =>
    intro w h
    simp only [historyEntryWarns, List.mem_append] at h
    rcases h with ((h | h) | h) | h
    · split at h
      · simp at h
        subst h
        exact Or.inl rfl
      · simp at h
    · split at h
      · simp at h
        subst h
        exact Or.inr (Or.inl rfl)
      · simp at h
    · split at h
      · simp at h
        subst h
        exact Or.inr (Or.inr rfl)
      · simp at h
    · exact ih (i + 1) w h

/-- Every history validation warning carries one of the four history codes. -/
theorem histEW_warn_code (st : Bool) (hs : List HistoryEntry) (w : Issue)
    (h : w ∈ (validateHistoryEW st hs).2) :
    w.code = "HISTORY_MISSING" ∨ w.code = "HISTORY_VERSION_MISSING" ∨
    w.code = "HISTORY_DATE_MISSING" ∨ w.code = "HISTORY_COMMENT_MISSING" := by
  unfold validateHistoryEW at h
  split at h
  · split at h
    · simp at h
    · simp at h
      subst h
      exact Or.inl rfl
  · rcases historyEntryWarns_code 0 hs w h with h1 | h1 | h1
    · exact Or.inr (Or.inl h1)
    · exact Or.inr (Or.inr (Or.inl h1))
    · exact Or.inr (Or.inr (Or.inr h1))

/-- Every image validation warning carries one of the two image codes. -/
theorem imageIssuesFrom_warn_code : ∀ (k : Nat) (imgs : List Image) (w : Issue),
    w ∈ (imageIssuesFrom k imgs).2 →
    w.code = "IMAGE_NO_FILENAME" ∨ w.code = "IMAGE_NO_CONTENT_TYPE" := by
  intro k imgs
  induction imgs generalizing k with
  | nil => intro w h; simp [imageIssuesFrom] at h
  | cons a rest ih =>
    intro w h
    simp only [imageIssuesFrom, pcat, List.mem_append] at h
    rcases h with (h | h) | h
    · split at h
      · simp at h
        subst h
        exact Or.inl rfl
      · simp at h
    · split at h
      · simp at h
        subst h
        exact Or.inr rfl
      · simp at h
    · exact ih (k + 1) w h

/-- Claim C5 counterexample: with a malformed `createdDate` and strict mode
on, validation still succeeds — the violation is only a warning, not a hard
failure. -/
theorem claim5_counterexample_no_strict_failure :
    matchesDatePattern badDateMeta.createdDate = false ∧
    (validateDoc true badDateDoc).valid = true ∧
    ((validateDoc true badDateDoc).warnings.filter fun w =>
      w.code == "METADATA_DATE_FORMAT").length = 1 := by
  decide

/-- Claim C5 (amended): a present `createdDate` that does not match
`DD.MM.YYYY` is reported as a `METADATA_DATE_FORMAT` warning in both modes;
it never contributes an error, strict or not. -/
theorem claim5_date_format_warning_only :
    ∀ (strict : Bool) (doc : RecognizedDoc) (m : Metadata),
    doc.metadata = some m → m.createdDate ≠ "" →
    matchesDatePattern m.createdDate = false →
    (∃ w ∈ (validateDoc strict doc).warnings, w.code = "METADATA_DATE_FORMAT") ∧
    (∀ e ∈ (validateDoc strict doc).errors, e.code ≠ "METADATA_DATE_FORMAT") := by
  intro strict doc m hmd hne hbad
  constructor
  · have hdw : warnIssue "METADATA_DATE_FORMAT"
        ("Дата создания имеет нестандартный формат: " ++ m.createdDate ++
         " (ожидается DD.MM.YYYY)") ∈ (dateFormatIssues m.createdDate).2 := by
      simp [dateFormatIssues, hne, hbad]
    have h1 : warnIssue "METADATA_DATE_FORMAT"
        ("Дата создания имеет нестандартный формат: " ++ m.createdDate ++
         " (ожидается DD.MM.YYYY)") ∈ (validateMetadataEW strict doc.metadata).2 := by
      rw [hmd]
      simp only [validateMetadataEW, pcat, List.mem_append]
      exact Or.inr (Or.inr (Or.inr (Or.inr hdw)))
    refine ⟨warnIssue "METADATA_DATE_FORMAT"
        ("Дата создания имеет нестандартный формат: " ++ m.createdDate ++
         " (ожидается DD.MM.YYYY)"), ?_, rfl⟩
    simp only [validateDoc, pcat, List.mem_append]
    exact Or.inl h1
  · intro e he
    simp only [validateDoc, pcat, List.mem_append] at he
    rcases he with he | he | he | he
    · rcases metaEW_err_code _ _ _ he with h1 | h1 | h1 | h1 <;> rw [h1] <;> decide
    · rw [histEW_err_code _ _ _ he]
      decide
    · split at he
      · rcases sectEW_err_code _ _ he with h1 | h1 <;> rw [h1] <;> decide
      · simp at he
    · rcases himgs : doc.images with _ | imgs
      · rw [himgs] at he
        simp [validateImagesEW] at he
      · rw [himgs] at he
        rw [imageIssuesFrom_err_code 0 imgs e he]
        decide

/-- Claim C5 witness: the amended statement at the concrete bad-date
document, in strict mode. -/
theorem claim5_date_format_warning_only_witness :
    (∃ w ∈ (validateDoc true badDateDoc).warnings, w.code = "METADATA_DATE_FORMAT") ∧
    (∀ e ∈ (validateDoc true badDateDoc).errors, e.code ≠ "METADATA_DATE_FORMAT") :=
  claim5_date_format_warning_only true badDateDoc badDateMeta rfl (by decide) (by decide)

/-- With a non-empty section list and some canonical section missing, the
section validator emits exactly the aggregated error. -/
theorem sectEW_missing_fst (ss : List Section) (h1 : ss ≠ [])
    (h2 : missingSectionNames ss ≠ []) :
    (validateSectionsEW ss).1 =
      [errIssue "SECTIONS_REQUIRED_MISSING"
        (sectionsMissingMessage (missingSectionNames ss))] := by
  have hlen : (ss.length == 0) = false := by
    cases ss
    · exact absurd rfl h1
    · rfl
  have hpos : 0 < (missingSectionNames ss).length := List.length_pos.mpr h2
  simp [validateSectionsEW, hlen, hpos]

/-- Claim C1 counterexample: on a document missing 3 canonical sections,
non-strict validation returns valid with NO section warnings at all —
section checks are skipped entirely outside strict mode. -/
theorem claim1_counterexample_nonstrict_silence :
    (validateDoc false missingThreeDoc).valid = true ∧
    ((validateDoc false missingThreeDoc).warnings.filter fun w =>
      w.code == "SECTIONS_REQUIRED_MISSING") = [] ∧
    (missingSectionNames missingThreeDoc.sections).length = 3 := by
  decide

/-- Claim C1 (amended): with a non-empty section list missing some canonical
sections, strict validation fails with exactly one aggregated
`SECTIONS_REQUIRED_MISSING` error naming exactly the missing sections;
non-strict validation (on an otherwise clean document) returns valid and
produces no section warnings, because section validation is skipped. -/
theorem claim1_validator_strictness : ∀ doc : RecognizedDoc,
    (doc.sections ≠ [] → missingSectionNames doc.sections ≠ [] →
      (validateDoc true doc).valid = false ∧
      (validateDoc true doc).errors.filter
          (fun e => e.code == "SECTIONS_REQUIRED_MISSING") =
        [errIssue "SECTIONS_REQUIRED_MISSING"
          (sectionsMissingMessage (missingSectionNames doc.sections))]) ∧
    (doc.metadata ≠ none → noEmptyImage doc.images = true →
      (validateDoc false doc).valid = true ∧
      ∀ w ∈ (validateDoc false doc).warnings,
        w.code ≠ "SECTIONS_REQUIRED_MISSING") := by
  intro doc
  constructor
  · intro hs hm
    have herr : (validateDoc true doc).errors =
        (validateMetadataEW true doc.metadata).1 ++
          ((validateHistoryEW true doc.history).1 ++
            ((validateSectionsEW doc.sections).1 ++
              (validateImagesEW doc.images).1)) := rfl
    have f1 : (validateMetadataEW true doc.metadata).1.filter
        (fun e => e.code == "SECTIONS_REQUIRED_MISSING") = [] :=
      List.filter_eq_nil_iff.mpr fun e he => by
        rcases metaEW_err_code _ _ _ he with h | h | h | h <;> rw [h] <;> decide
    have f2 : (validateHistoryEW true doc.history).1.filter
        (fun e => e.code == "SECTIONS_REQUIRED_MISSING") = [] :=
      List.filter_eq_nil_iff.mpr fun e he => by
        rw [histEW_err_code _ _ _ he]; decide
    have f4 : (validateImagesEW doc.images).1.filter
        (fun e => e.code == "SECTIONS_REQUIRED_MISSING") = [] := by
      rcases himgs : doc.images with _ | imgs
      · rfl
      · refine List.filter_eq_nil_iff.mpr fun e he => by
          rw [imageIssuesFrom_err_code 0 imgs e he]; decide
    have hfilter : (validateDoc true doc).errors.filter
        (fun e => e.code == "SECTIONS_REQUIRED_MISSING") =
        [errIssue "SECTIONS_REQUIRED_MISSING"
          (sectionsMissingMessage (missingSectionNames doc.sections))] := by
      rw [herr, List.filter_append, List.filter_append, List.filter_append]
      rw [sectEW_missing_fst doc.sections hs hm, f1, f2, f4]
      simp [errIssue]
    refine ⟨?_, hfilter⟩
    have hne : (validateDoc true doc).errors ≠ [] := by
      intro h0
      rw [h0] at hfilter
      simp at hfilter
    have hv : (validateDoc true doc).valid =
        ((validateDoc true doc).errors.length == 0) := rfl
    rw [hv]
    cases hE : (validateDoc true doc).errors with
    | nil => exact absurd hE hne
    | cons a l => simp
  · intro hmd himg
    rcases hmds : doc.metadata with _ | m
    · exact absurd hmds hmd
    have himgnil : (validateImagesEW doc.images).1 = [] := by
      rcases himgs : doc.images with _ | imgs
      · rfl
      · rw [himgs] at himg
        simp only [noEmptyImage, List.all_eq_true] at himg
        exact imageIssuesFrom_fst_nil 0 imgs fun i hi => by
          have := himg i hi
          simpa using this
    have herrnil : (validateDoc false doc).errors = [] := by
      have herr : (validateDoc false doc).errors =
          (validateMetadataEW false doc.metadata).1 ++
            ((validateHistoryEW false doc.history).1 ++
              (([] : List Issue) ++ (validateImagesEW doc.images).1)) := rfl
      rw [herr, hmds, metaEW_false_fst, histEW_false_fst, himgnil]
      rfl
    constructor
    · have hv : (validateDoc false doc).valid =
          ((validateDoc false doc).errors.length == 0) := rfl
      rw [hv, herrnil]
      rfl
    · intro w hw
      simp only [validateDoc, pcat, List.mem_append] at hw
      rcases hw with hw | hw | hw | hw
      · rcases metaEW_warn_code _ _ _ hw with h | h | h | h | h <;> rw [h] <;> decide
      · rcases histEW_warn_code _ _ _ hw with h | h | h | h <;> rw [h] <;> decide
      · simp at hw
      · rcases himgs2 : doc.images with _ | imgs
        · rw [himgs2] at hw
          simp [validateImagesEW] at hw
        · rw [himgs2] at hw
          rcases imageIssuesFrom_warn_code 0 imgs w hw with h | h <;> rw [h] <;> decide

/-- Claim C1 witness: both halves of the amended statement at the concrete
document missing three sections. -/
theorem claim1_validator_strictness_witness :
    ((validateDoc true missingThreeDoc).valid = false ∧
      (validateDoc true missingThreeDoc).errors.filter
          (fun e => e.code == "SECTIONS_REQUIRED_MISSING") =
        [errIssue "SECTIONS_REQUIRED_MISSING"
          (sectionsMissingMessage (missingSectionNames missingThreeDoc.sections))]) ∧
    ((validateDoc false missingThreeDoc).valid = true ∧
      ∀ w ∈ (validateDoc false missingThreeDoc).warnings,
        w.code ≠ "SECTIONS_REQUIRED_MISSING") :=
  ⟨(claim1_validator_strictness missingThreeDoc).1 (by decide) (by decide),
   (claim1_validator_strictness missingThreeDoc).2 (by decide) (by decide)⟩

/-- The recognizer's history is never the empty list. -/
theorem extractHistory_ne_nil : ∀ (tbl : Option Table) (now : JsDate),
    extractHistory tbl now ≠ [] := by
  intro tbl now
  rcases tbl with _ | t
  · simp [extractHistory, getDefaultHistory]
  · simp only [extractHistory]
    split
    · simp [getDefaultHistory]
    · split
      · next h => exact List.length_pos.mp h
      · simp [getDefaultHistory]

/-- On a non-empty history list the history validator emits no errors. -/
theorem histEW_fst_of_ne_nil (st : Bool) (l : List HistoryEntry) (h : l ≠ []) :
    (validateHistoryEW st l).1 = [] := by
  have hlen : (l.length == 0) = false := by
    cases l
    · exact absurd rfl h
    · rfl
  simp [validateHistoryEW, hlen]

/-- On a non-empty history list the history warnings are per-entry ones. -/
theorem histEW_snd_of_ne_nil (st : Bool) (l : List HistoryEntry) (h : l ≠ []) :
    (validateHistoryEW st l).2 = historyEntryWarns 0 l := by
  have hlen : (l.length == 0) = false := by
    cases l
    · exact absurd rfl h
    · rfl
  simp [validateHistoryEW, hlen]

/-- Claim C10: the recognizer always returns a non-empty history — when the
history table is absent or shorter than two rows the result is the single
default entry (version "1.0", current date in DD.MM.YYYY, comment
"Конвертировано из DOCX", empty author) — so the validator's
`HISTORY_MISSING` check never fires on recognizer output, in either mode. -/
theorem claim10_history_never_empty :
    ∀ (tbl : Option Table) (now : JsDate) (strict : Bool),
    1 ≤ (extractHistory tbl now).length ∧
    (historyShort tbl = true → extractHistory tbl now = getDefaultHistory now) ∧
    getDefaultHistory now =
      [{ version := "1.0", date := formatDate now,
         comment := "Конвертировано из DOCX", author := "" }] ∧
    (∀ e ∈ (validateHistoryEW strict (extractHistory tbl now)).1,
      e.code ≠ "HISTORY_MISSING") ∧
    (∀ w ∈ (validateHistoryEW strict (extractHistory tbl now)).2,
      w.code ≠ "HISTORY_MISSING") := by
  intro tbl now strict
  have hne := extractHistory_ne_nil tbl now
  refine ⟨List.length_pos.mpr hne, ?_, rfl, ?_, ?_⟩
  · intro hshort
    rcases tbl with _ | t
    · rfl
    · have hlt : t.rows.length < 2 := of_decide_eq_true hshort
      simp [extractHistory, hlt]
  · intro e he
    rw [histEW_fst_of_ne_nil strict _ hne] at he
    simp at he
  · intro w hw
    rw [histEW_snd_of_ne_nil strict _ hne] at hw
    rcases historyEntryWarns_code 0 _ w hw with h | h | h <;> rw [h] <;> decide

/-- Claim C10 witness: absent history table yields exactly the default entry. -/
theorem claim10_history_never_empty_witness :
    extractHistory none ⟨5, 2, 2025⟩ = getDefaultHistory ⟨5, 2, 2025⟩ ∧
    1 ≤ (extractHistory none ⟨5, 2, 2025⟩).length :=
  ⟨(claim10_history_never_empty none ⟨5, 2, 2025⟩ true).2.1 (by decide),
   (claim10_history_never_empty none ⟨5, 2, 2025⟩ true).1⟩

/-- Evaluating the digit expansion recovers the number (fuel-indexed). -/
theorem fromDigitsRev_decFuel : ∀ (fuel n : Nat), n ≤ fuel →
    fromDigitsRev (decDigitsRevFuel fuel n) = n := by
  intro fuel
  induction fuel with
  | zero =>
    intro n hn
    have : n = 0 := Nat.le_zero.mp hn
    subst this
    rfl
  | succ fuel ih =>
    intro n hn
    by_cases h10 : n < 10
    · simp [decDigitsRevFuel, h10, fromDigitsRev]
    · have hdiv : n / 10 ≤ fuel := by
        have h1 : n / 10 < n := Nat.div_lt_self (by omega) (by omega)
        omega
      simp only [decDigitsRevFuel, h10, if_false, fromDigitsRev, ih (n / 10) hdiv]
      exact Nat.mod_add_div n 10

/-- The digit expansion is injective. -/
theorem decDigitsRev_inj {m n : Nat} (h : decDigitsRev m = decDigitsRev n) :
    m = n := by
  have hm := fromDigitsRev_decFuel m m (Nat.le_refl m)
  have hn := fromDigitsRev_decFuel n n (Nat.le_refl n)
  have h' : decDigitsRevFuel m m = decDigitsRevFuel n n := h
  rw [← hm, ← hn, h']

/-- All produced digits are below 10 (fuel-indexed). -/
theorem decFuel_lt_ten : ∀ (fuel n : Nat), n ≤ fuel →
    ∀ d ∈ decDigitsRevFuel fuel n, d < 10 := by
  intro fuel
  induction fuel with
  | zero =>
    intro n hn d hd
    have : n = 0 := Nat.le_zero.mp hn
    subst this
    simp [decDigitsRevFuel] at hd
    omega
  | succ fuel ih =>
    intro n hn d hd
    by_cases h10 : n < 10
    · simp [decDigitsRevFuel, h10] at hd
      omega
    · simp only [decDigitsRevFuel, h10, if_false, List.mem_cons] at hd
      rcases hd with rfl | hd
      · exact Nat.mod_lt n (by omega)
      · have hdiv : n / 10 ≤ fuel := by
          have h1 : n / 10 < n := Nat.div_lt_self (by omega) (by omega)
          omega
        exact ih (n / 10) hdiv d hd

/-- Inversion: `chDig` undoes `digitCh` on digits. -/
theorem chDig_digitCh : ∀ d : Fin 10, chDig (digitCh d.val) = d.val := by
  decide

/-- Mapping to characters and back is the identity on digit lists. -/
theorem map_chDig_digitCh : ∀ l : List Nat, (∀ d ∈ l, d < 10) →
    (l.map digitCh).map chDig = l := by
  intro l
  induction l with
  | nil => intro _; rfl
  | cons a rest ih =>
    intro hall
    have ha : a < 10 := hall a (List.mem_cons_self a rest)
    have hhead : chDig (digitCh a) = a := chDig_digitCh ⟨a, ha⟩
    simp only [List.map_cons, hhead]
    rw [ih fun d hd => hall d (List.mem_cons_of_mem a hd)]

/-- The JS decimal rendering of a natural is injective. -/
theorem jsNatStr_inj {m n : Nat} (h : jsNatStr m = jsNatStr n) : m = n := by
  have hdata : (decDigitsRev m).reverse.map digitCh =
      (decDigitsRev n).reverse.map digitCh := congrArg String.data h
  have hm : ((decDigitsRev m).reverse.map digitCh).map chDig = (decDigitsRev m).reverse :=
    map_chDig_digitCh _ fun d hd =>
      decFuel_lt_ten m m (Nat.le_refl m) d (List.mem_reverse.mp hd)
  have hn : ((decDigitsRev n).reverse.map digitCh).map chDig = (decDigitsRev n).reverse :=
    map_chDig_digitCh _ fun d hd =>
      decFuel_lt_ten n n (Nat.le_refl n) d (List.mem_reverse.mp hd)
  have hrev : (decDigitsRev m).reverse = (decDigitsRev n).reverse := by
    rw [← hm, ← hn, hdata]
  exact decDigitsRev_inj (List.reverse_injective hrev)

/-- The relationship-id rendering is injective. -/
theorem mkRId_inj : Function.Injective mkRId := by
  intro m n h
  have hdata : ("rId" ++ jsNatStr m).data = ("rId" ++ jsNatStr n).data :=
    congrArg String.data h
  rw [String.data_append, String.data_append] at hdata
  have h2 : (jsNatStr m).data = (jsNatStr n).data :=
    List.append_cancel_left hdata
  exact jsNatStr_inj (String.ext h2)

/-- A binding survives appending further pairs. -/
theorem findUrl_append_some {u r : String} : ∀ (l1 l2 : List (String × String)),
    findUrl u l1 = some r → findUrl u (l1 ++ l2) = some r := by
  intro l1 l2
  induction l1 with
  | nil => intro h; simp [findUrl] at h
  | cons p rest ih =>
    intro h
    simp only [findUrl, List.cons_append] at h ⊢
    split at h
    · next heq => simp [heq, h]
    · next heq => simp only [if_neg heq]; exact ih h

/-- Looking up past an unbinding prefix. -/
theorem findUrl_append_none {u : String} : ∀ (l1 l2 : List (String × String)),
    findUrl u l1 = none → findUrl u (l1 ++ l2) = findUrl u l2 := by
  intro l1 l2
  induction l1 with
  | nil => intro _; rfl
  | cons p rest ih =>
    intro h
    simp only [findUrl, List.cons_append] at h ⊢
    split at h
    · exact absurd h (by simp)
    · next heq => simp only [if_neg heq]; exact ih h

/-- A found value is among the stored values. -/
theorem findUrl_mem {u r : String} : ∀ l : List (String × String),
    findUrl u l = some r → r ∈ l.map Prod.snd := by
  intro l
  induction l with
  | nil => intro h; simp [findUrl] at h
  | cons p rest ih =>
    intro h
    simp only [findUrl] at h
    split at h
    · simp at h
      simp [h]
    · simp only [List.map_cons, List.mem_cons]
      exact Or.inr (ih h)

/-- After `addHyperlink st u`, the url is bound to the returned id. -/
theorem addHyperlink_lookup (st : HlState) (u : String) :
    findUrl u (addHyperlink st u).2.pairs = some (addHyperlink st u).1 := by
  unfold addHyperlink
  cases hfind : findUrl u st.pairs with
  | some r => simpa using hfind
  | none =>
    simp only []
    rw [findUrl_append_none st.pairs _ hfind]
    simp [findUrl]

/-- Stability: `addHyperlink` never rebinds an existing url. -/
theorem addHyperlink_mono (st : HlState) (u k v : String)
    (h : findUrl k st.pairs = some v) :
    findUrl k (addHyperlink st u).2.pairs = some v := by
  unfold addHyperlink
  cases hfind : findUrl u st.pairs with
  | some r => simpa using h
  | none => exact findUrl_append_some st.pairs _ h

/-- A run of calls never rebinds an existing url. -/
theorem runAdds_mono : ∀ (us : List String) (st : HlState) (k v : String),
    findUrl k st.pairs = some v →
    findUrl k ((runAdds st us).2).pairs = some v := by
  intro us
  induction us with
  | nil => intro st k v h; exact h
  | cons u rest ih =>
    intro st k v h
    exact ih (addHyperlink st u).2 k v (addHyperlink_mono st u k v h)

/-- The fresh context satisfies the invariant. -/
theorem hlInv_init : HlInv initHl :=
  ⟨[], List.nodup_nil, by simp, rfl⟩

/-- One call preserves the invariant. -/
theorem addHyperlink_inv (st : HlState) (u : String) (h : HlInv st) :
    HlInv (addHyperlink st u).2 := by
  obtain ⟨ks, hnd, hlt, hmap⟩ := h
  unfold addHyperlink
  cases hfind : findUrl u st.pairs with
  | some r => exact ⟨ks, hnd, hlt, hmap⟩
  | none =>
    refine ⟨ks ++ [st.counter], ?_, ?_, ?_⟩
    · rw [List.nodup_append]
      refine ⟨hnd, List.nodup_singleton _, ?_⟩
      intro a ha hb
      have : a = st.counter := by simpa using hb
      subst this
      exact absurd (hlt st.counter ha) (lt_irrefl _)
    · intro k hk
      rcases List.mem_append.mp hk with hk | hk
      · exact Nat.lt_succ_of_lt (hlt k hk)
      · have : k = st.counter := by simpa using hk
        subst this
        exact Nat.lt_succ_self _
    · simp only [List.map_append, List.map_cons, List.map_nil]
      rw [hmap]

/-- A run of calls preserves the invariant. -/
theorem runAdds_inv : ∀ (us : List String) (st : HlState), HlInv st →
    HlInv (runAdds st us).2 := by
  intro us
  induction us with
  | nil => intro st h; exact h
  | cons u rest ih => intro st h; exact ih (addHyperlink st u).2 (addHyperlink_inv st u h)

/-- Under the invariant the stored values are pairwise distinct. -/
theorem hlInv_values_nodup (st : HlState) (h : HlInv st) :
    (st.pairs.map Prod.snd).Nodup := by
  obtain ⟨ks, hnd, _, hmap⟩ := h
  rw [hmap]
  exact hnd.map mkRId_inj

/-- With distinct stored values, distinct urls resolve to distinct ids. -/
theorem findUrl_inj {u v a b : String} : ∀ l : List (String × String),
    (l.map Prod.snd).Nodup → u ≠ v →
    findUrl u l = some a → findUrl v l = some b → a ≠ b := by
  intro l
  induction l with
  | nil => intro _ _ hu; simp [findUrl] at hu
  | cons p rest ih =>
    intro hnd huv hu hv
    simp only [List.map_cons, List.nodup_cons] at hnd
    obtain ⟨hnotin, hndrest⟩ := hnd
    simp only [findUrl] at hu hv
    by_cases hpu : p.1 = u
    · rw [if_pos hpu] at hu
      have ha : a = p.2 := by simpa using hu.symm
      have hpv : ¬ p.1 = v := fun hh => huv (hpu ▸ hh ▸ rfl)
      rw [if_neg hpv] at hv
      have hbmem : b ∈ rest.map Prod.snd := findUrl_mem rest hv
      subst ha
      intro hab
      exact hnotin (hab ▸ hbmem)
    · rw [if_neg hpu] at hu
      by_cases hpv : p.1 = v
      · rw [if_pos hpv] at hv
        have hb : b = p.2 := by simpa using hv.symm
        have hamem : a ∈ rest.map Prod.snd := findUrl_mem rest hu
        subst hb
        intro hab
        exact hnotin (hab ▸ hamem)
      · rw [if_neg hpv] at hv
        exact ih hndrest huv hu hv

/-- A run returns one id per url. -/
theorem runAdds_length : ∀ (us : List String) (st : HlState),
    (runAdds st us).1.length = us.length := by
  intro us
  induction us with
  | nil => intro st; rfl
  | cons u rest ih =>
    intro st
    simp only [runAdds, List.length_cons]
    rw [ih]

/-- Length: `runIds` returns one id per url. -/
theorem runIds_length (urls : List String) :
    (runIds urls).length = urls.length :=
  runAdds_length urls initHl

/-- In the final state, each url of the run is bound to the id returned for
it at its call position. -/
theorem runAdds_get : ∀ (us : List String) (st : HlState) (i : Nat)
    (hi : i < us.length),
    findUrl (us.get ⟨i, hi⟩) ((runAdds st us).2).pairs =
      some ((runAdds st us).1.get
        ⟨i, by rw [runAdds_length]; exact hi⟩) := by
  intro us
  induction us with
  | nil => intro st i hi; exact absurd hi (by simp)
  | cons u rest ih =>
    intro st i hi
    cases i with
    | zero =>
      have h1 : findUrl u (addHyperlink st u).2.pairs =
          some (addHyperlink st u).1 := addHyperlink_lookup st u
      exact runAdds_mono rest (addHyperlink st u).2 u (addHyperlink st u).1 h1
    | succ j =>
      exact ih (addHyperlink st u).2 j (Nat.lt_of_succ_lt_succ hi)

/-- Claim C9: for any sequence of `addHyperlink` calls on one fresh build
context, registering the same url at two positions returns the same
relationship id, and registering distinct urls returns distinct ids. -/
theorem claim9_hyperlink_dedup (urls : List String) (i j : Fin urls.length) :
    ((urls.get i = urls.get j) →
      (runIds urls).get (Fin.cast (runIds_length urls).symm i) =
      (runIds urls).get (Fin.cast (runIds_length urls).symm j)) ∧
    ((urls.get i ≠ urls.get j) →
      (runIds urls).get (Fin.cast (runIds_length urls).symm i) ≠
      (runIds urls).get (Fin.cast (runIds_length urls).symm j)) := by
  have hgi := runAdds_get urls initHl i.val i.isLt
  have hgj := runAdds_get urls initHl j.val j.isLt
  constructor
  · intro heq
    have h1 : (⟨i.val, i.isLt⟩ : Fin urls.length) = i := rfl
    have h2 : (⟨j.val, j.isLt⟩ : Fin urls.length) = j := rfl
    rw [h1] at hgi
    rw [h2] at hgj
    rw [heq] at hgi
    have := hgi.symm.trans hgj
    exact Option.some_injective _ this
  · intro hne
    have hnodup : (((runAdds initHl urls).2).pairs.map Prod.snd).Nodup :=
      hlInv_values_nodup _ (runAdds_inv urls initHl hlInv_init)
    exact findUrl_inj _ hnodup hne hgi hgj

/-- Claim C9 witness: in the demo run, the repeated url gets the same id
back and the distinct url gets a different id. -/
theorem claim9_hyperlink_dedup_witness :
    (runIds demoUrls).get (Fin.cast (runIds_length demoUrls).symm ⟨0, by decide⟩) =
      (runIds demoUrls).get (Fin.cast (runIds_length demoUrls).symm ⟨2, by decide⟩) ∧
    (runIds demoUrls).get (Fin.cast (runIds_length demoUrls).symm ⟨0, by decide⟩) ≠
      (runIds demoUrls).get (Fin.cast (runIds_length demoUrls).symm ⟨1, by decide⟩) :=
  ⟨(claim9_hyperlink_dedup demoUrls ⟨0, by decide⟩ ⟨2, by decide⟩).1 (by decide),
   (claim9_hyperlink_dedup demoUrls ⟨0, by decide⟩ ⟨1, by decide⟩).2 (by decide)⟩

end Chtz
